import Mathlib

/-!
Verification of the per-conversation ordered job queue of the ai-boilerplate
repository (packages/ai-api), against its natural-language specification.

The development shallowly embeds the queue subsystem:

* the chunk/metadata relay (`queue/utils.py`: `save_job_chunk`,
  `set_job_metadata`, `get_job_chunks`, `get_job_metadata`) as a state
  record `RelayState` with pure update functions;
* job status inference (`main.py` / `routes/chat.py`:
  `get_stream_job_status`, `get_job_status`) as pure functions of the
  relay state;
* the job processor (`streams/processor.py`: `process_chat_job_direct`)
  as a state-passing function parameterised by the behaviour of its
  external collaborators (the agent token stream, relay write outcomes,
  the history store);
* the stream consumer (`streams/consumer.py`: `process_user_stream`,
  `run_stream_consumer`, `discover_active_streams`) as event-trace
  producing functions.

`streams/manager.py` (`read_stream_messages`, `acknowledge_message`,
`GROUP_NAME`, `add_message_to_stream`) is imported by the source but is not
part of the sources available here; where its behaviour matters it is
modelled from the specification's Durable Append Log contract (spec section
4.1), and this is noted at each such definition.
-/

/-! ## Chunk/metadata relay (queue/utils.py) -/

/-- One streamed result fragment, as stored by `save_job_chunk`
(`queue/utils.py`): a JSON record with fields `index`, `content`,
`timestamp` appended to the Redis list `job:chunks:{job_id}`.
`timestamp` (`datetime.utcnow().isoformat()`) is kept abstract as a
string. -/
structure Chunk where
  index : Nat
  content : String
  timestamp : String
deriving DecidableEq, Repr

/-- The completion record written once by `set_job_metadata`
(`queue/utils.py`) to the Redis key `job:meta:{job_id}`.  Fields mirror the
dictionary built at `streams/processor.py` step 7 plus the `created_at`
timestamp added by `set_job_metadata` itself. -/
structure MetaRec where
  user_id : String
  whatsapp_jid : String
  message : String
  conversation_type : String
  total_chunks : Nat
  db_message_id : String
  user_message_id : String
  created_at : String
deriving DecidableEq, Repr

/-- Default of the `QUEUE_CHUNK_TTL` environment variable consulted by
`save_job_chunk` (`queue/utils.py`, line 44). -/
def QUEUE_CHUNK_TTL_DEFAULT : Nat := 3600

/-- Default of the `ARQ_KEEP_RESULT` environment variable consulted by
`set_job_metadata` (`queue/utils.py`, line 122). -/
def ARQ_KEEP_RESULT_DEFAULT : Nat := 3600

/-- The ephemeral relay, keyed by job id: the chunk list
`job:chunks:{job_id}` with its TTL deadline, and the metadata record
`job:meta:{job_id}` with its TTL deadline.  Expiry deadlines are modelled
as absolute times (`Option Nat`, `none` when the key is absent / has no
deadline). -/
structure RelayState where
  chunks : String → List Chunk
  chunkExpiry : String → Option Nat
  meta : String → Option MetaRec
  metaExpiry : String → Option Nat

/-- The list-level core of `save_job_chunk`: `rpush` of the encoded chunk
onto the job's chunk list (`queue/utils.py`, line 41). -/
def appendChunk (l : List Chunk) (index : Nat) (content timestamp : String) :
    List Chunk :=
  l ++ [⟨index, content, timestamp⟩]

/-- `save_job_chunk(redis, job_id, index, content)` (`queue/utils.py`,
lines 17-45): appends the chunk to `job:chunks:{job_id}` and then sets that
key's TTL from `QUEUE_CHUNK_TTL` (so the chunk-list deadline is refreshed
from the last write); the metadata key is untouched.  `now` is the wall
clock at the write and `ttl` the configured `QUEUE_CHUNK_TTL`. -/
def save_job_chunk (r : RelayState) (job_id : String) (index : Nat)
    (content timestamp : String) (now ttl : Nat) : RelayState :=
  { r with
    chunks := fun k =>
      if k = job_id then appendChunk (r.chunks k) index content timestamp
      else r.chunks k
    chunkExpiry := fun k => if k = job_id then some (now + ttl) else r.chunkExpiry k }

/-- `set_job_metadata(redis, job_id, metadata)` (`queue/utils.py`, lines
101-123): stores the metadata record under `job:meta:{job_id}` with
expiry `ARQ_KEEP_RESULT`, independent of the chunk key.  `m` already
carries the `created_at` timestamp the function adds. -/
def set_job_metadata (r : RelayState) (job_id : String) (m : MetaRec)
    (now keep : Nat) : RelayState :=
  { r with
    meta := fun k => if k = job_id then some m else r.meta k
    metaExpiry := fun k => if k = job_id then some (now + keep) else r.metaExpiry k }

/-- The store-side effect of the chunk-list TTL elapsing for `job_id`:
Redis drops the key `job:chunks:{job_id}`; the metadata key is
independent and survives. -/
def expireChunkList (r : RelayState) (job_id : String) : RelayState :=
  { r with
    chunks := fun k => if k = job_id then [] else r.chunks k
    chunkExpiry := fun k => if k = job_id then none else r.chunkExpiry k }

/-! ## Job status inference (main.py lines 99-121, routes/chat.py lines 38-60) -/

/-- The tri-state job status derived from relay contents alone. -/
inductive JobStatus
  | queued
  | in_progress
  | complete
deriving DecidableEq, Repr

/-- `get_stream_job_status(redis, job_id)` (`main.py` lines 99-121 and the
identical `routes/chat.py` lines 38-60): metadata present → `complete`;
else chunks present → `in_progress`; else `queued`.  `get_job_metadata`
returns `None` when the key is absent (the stored record is never the
empty dictionary, since `set_job_metadata` always adds `created_at`), so
its result is modelled as `Option MetaRec`. -/
def get_stream_job_status (r : RelayState) (job_id : String) : JobStatus :=
  match r.meta job_id with
  | some _ => JobStatus.complete
  | none => if r.chunks job_id = [] then JobStatus.queued else JobStatus.in_progress

/-- The body of the `/chat/job/{job_id}` response (`JobStatusResponse` in
`queue/schemas.py`, as populated by `get_job_status`). -/
structure JobStatusResponse where
  job_id : String
  status : JobStatus
  chunks : List Chunk
  total_chunks : Nat
  complete : Bool
  full_response : Option String
deriving DecidableEq, Repr

/-- `get_job_status(job_id)` (`routes/chat.py` lines 361-406 and the
identical `main.py` lines 762-809): infers the status, lists the stored
chunks, sets `total_chunks` to their count, `complete` to
`status == 'complete'`, and assembles `full_response` by joining the
stored chunk contents only when the status is complete and the chunk list
is non-empty (`if status == 'complete' and chunks:`). -/
def get_job_status (r : RelayState) (job_id : String) : JobStatusResponse :=
  let status := get_stream_job_status r job_id
  let chunks := r.chunks job_id
  { job_id := job_id
    status := status
    chunks := chunks
    total_chunks := chunks.length
    complete := status = JobStatus.complete
    full_response :=
      if status = JobStatus.complete ∧ chunks ≠ [] then
        some (String.join (chunks.map Chunk.content))
      else none }

/-! ## Theorems: status inference -/

/-- C3: for every relay state and job id, the inferred status is `complete`
exactly when job metadata exists, `in_progress` exactly when no metadata
but at least one chunk exists, and `queued` exactly when neither exists
(so an unknown job id — no metadata, no chunks — yields `queued`);
the three cases are decided in that priority order over the relay contents
alone. -/
theorem C3_status_inference (r : RelayState) (j : String) :
    (get_stream_job_status r j = JobStatus.complete ↔ (r.meta j).isSome) ∧
    (get_stream_job_status r j = JobStatus.in_progress ↔
      r.meta j = none ∧ r.chunks j ≠ []) ∧
    (get_stream_job_status r j = JobStatus.queued ↔
      r.meta j = none ∧ r.chunks j = []) := by
  unfold get_stream_job_status
  rcases h : r.meta j with _ | m
  · by_cases hc : r.chunks j = [] <;> simp [hc]
  · simp

/-- C3, evaluated: on a concrete relay holding metadata for job "a", one
chunk for job "b" and nothing for job "c", the statuses are `complete`,
`in_progress` and `queued` respectively. -/
theorem C3_status_inference_witness :
    (get_stream_job_status
        { chunks := fun k => if k = "b" then [⟨0, "x", "t"⟩] else []
          chunkExpiry := fun _ => none
          meta := fun k =>
            if k = "a" then some ⟨"u", "w", "m", "private", 0, "1", "2", "t"⟩
            else none
          metaExpiry := fun _ => none } "a" = JobStatus.complete) ∧
    (get_stream_job_status
        { chunks := fun k => if k = "b" then [⟨0, "x", "t"⟩] else []
          chunkExpiry := fun _ => none
          meta := fun k =>
            if k = "a" then some ⟨"u", "w", "m", "private", 0, "1", "2", "t"⟩
            else none
          metaExpiry := fun _ => none } "b" = JobStatus.in_progress) ∧
    (get_stream_job_status
        { chunks := fun k => if k = "b" then [⟨0, "x", "t"⟩] else []
          chunkExpiry := fun _ => none
          meta := fun k =>
            if k = "a" then some ⟨"u", "w", "m", "private", 0, "1", "2", "t"⟩
            else none
          metaExpiry := fun _ => none } "c" = JobStatus.queued) := by
  refine ⟨?_, ?_, ?_⟩
  · exact ((C3_status_inference _ "a").1).mpr (by simp)
  · exact ((C3_status_inference _ "b").2.1).mpr (by simp)
  · exact ((C3_status_inference _ "c").2.2).mpr (by simp)

/-! ## Theorems: the /chat/job/{job_id} response (C6, C10) -/

/-- A relay holding metadata for job "j" (recording 5 total chunks) but an
empty chunk list for it — the state of a job whose chunk list has expired
(or that emitted no chunks), while its metadata is still present. -/
def metaOnlyRelay : RelayState :=
  { chunks := fun _ => []
    chunkExpiry := fun _ => none
    meta := fun k =>
      if k = "j" then some ⟨"u", "w", "m", "private", 5, "1", "2", "t"⟩ else none
    metaExpiry := fun _ => none }

/-- A relay holding metadata for job "j" and its two chunks "Hi", " there". -/
def demoRelay : RelayState :=
  { chunks := fun k => if k = "j" then [⟨0, "Hi", "t0"⟩, ⟨1, " there", "t1"⟩] else []
    chunkExpiry := fun _ => none
    meta := fun k =>
      if k = "j" then some ⟨"u", "w", "m", "private", 2, "1", "2", "t"⟩ else none
    metaExpiry := fun _ => none }

/-- C6 fails as stated: on the concrete relay `metaOnlyRelay` the status of
job "j" is `complete`, yet `full_response` is absent rather than equal to
the concatenation of the job's (empty) chunk list, because the code guards
the assembly with `if status == 'complete' and chunks:`. -/
theorem C6_counterexample :
    (get_job_status metaOnlyRelay "j").status = JobStatus.complete ∧
    (get_job_status metaOnlyRelay "j").full_response = none ∧
    (get_job_status metaOnlyRelay "j").full_response ≠
      some (String.join (((metaOnlyRelay.chunks "j")).map Chunk.content)) := by
  refine ⟨by decide, by decide, by decide⟩

/-- C6 (amended): `full_response` is present exactly when the status is
`complete` and at least one chunk is stored, and in that case it equals the
concatenation of the stored chunk contents in stored (= index, for
processor-written lists) order; with no chunk and no metadata the status is
`queued`; with chunks but no metadata it is `in_progress`. -/
theorem C6_full_response (r : RelayState) (j : String) :
    (((get_job_status r j).full_response).isSome ↔
      (r.meta j).isSome ∧ r.chunks j ≠ []) ∧
    ((r.meta j).isSome → r.chunks j ≠ [] →
      (get_job_status r j).full_response =
        some (String.join ((r.chunks j).map Chunk.content))) ∧
    (r.meta j = none → r.chunks j = [] →
      (get_job_status r j).status = JobStatus.queued) ∧
    (r.meta j = none → r.chunks j ≠ [] →
      (get_job_status r j).status = JobStatus.in_progress) := by
  unfold get_job_status get_stream_job_status
  rcases h : r.meta j with _ | m
  · by_cases hc : r.chunks j = [] <;> simp [hc]
  · by_cases hc : r.chunks j = [] <;> simp [hc]

/-- C6 (amended), evaluated on `demoRelay`: job "j" is complete with
`full_response = "Hi there"`, and job "q" (unknown) is queued. -/
theorem C6_full_response_witness :
    (get_job_status demoRelay "j").full_response = some "Hi there" ∧
    (get_job_status demoRelay "q").status = JobStatus.queued := by
  constructor
  · exact ((C6_full_response demoRelay "j").2.1 (by decide) (by decide)).trans (by decide)
  · exact (C6_full_response demoRelay "q").2.2.1 (by decide) (by decide)

/-- C10: in every `/chat/job/{job_id}` response, `complete` is true exactly
when `status` is `complete`, and `total_chunks` counts the chunks currently
stored in the relay — not the count recorded in the job metadata.  The
chunk-list TTL is refreshed from each chunk write using the chunk TTL
configuration while `set_job_metadata` sets the metadata TTL independently
and leaves the chunk key untouched; consequently, once the chunk list of a
job has expired while its metadata survives, `get_job_status` reports
status `complete` with `total_chunks = 0` and no `full_response`. -/
theorem C10_response_fields (r : RelayState) (j : String) :
    ((get_job_status r j).complete = true ↔
      (get_job_status r j).status = JobStatus.complete) ∧
    ((get_job_status r j).total_chunks = (r.chunks j).length) ∧
    (∀ idx c ts now ttl,
      (save_job_chunk r j idx c ts now ttl).chunkExpiry j = some (now + ttl) ∧
      (save_job_chunk r j idx c ts now ttl).meta = r.meta ∧
      (save_job_chunk r j idx c ts now ttl).metaExpiry = r.metaExpiry) ∧
    (∀ m now keep,
      (set_job_metadata r j m now keep).metaExpiry j = some (now + keep) ∧
      (set_job_metadata r j m now keep).chunks = r.chunks ∧
      (set_job_metadata r j m now keep).chunkExpiry = r.chunkExpiry) ∧
    (∀ m, r.meta j = some m →
      (get_job_status (expireChunkList r j) j).status = JobStatus.complete ∧
      (get_job_status (expireChunkList r j) j).total_chunks = 0 ∧
      (get_job_status (expireChunkList r j) j).full_response = none) := by
  refine ⟨?_, ?_, ?_, ?_, ?_⟩
  · unfold get_job_status
    rcases h : r.meta j with _ | m
    · by_cases hc : r.chunks j = [] <;> simp [get_stream_job_status, h, hc]
    · simp [get_stream_job_status, h]
  · unfold get_job_status; simp
  · intro idx c ts now ttl
    refine ⟨by simp [save_job_chunk], rfl, rfl⟩
  · intro m now keep
    refine ⟨by simp [set_job_metadata], rfl, rfl⟩
  · intro m hm
    unfold get_job_status get_stream_job_status expireChunkList
    simp [hm]

/-- C10, evaluated on `demoRelay`: after the chunk list of the completed
job "j" expires, the response is `complete` with `total_chunks = 0` and no
`full_response`, even though the surviving metadata records 2 chunks; and a
chunk write at time 10 with TTL 3600 sets the chunk deadline to 3610
without touching the metadata key. -/
theorem C10_response_fields_witness :
    ((get_job_status (expireChunkList demoRelay "j") "j").status = JobStatus.complete ∧
      (get_job_status (expireChunkList demoRelay "j") "j").total_chunks = 0 ∧
      (get_job_status (expireChunkList demoRelay "j") "j").full_response = none) ∧
    (save_job_chunk demoRelay "j" 2 "!" "t2" 10 QUEUE_CHUNK_TTL_DEFAULT).chunkExpiry "j"
      = some 3610 ∧
    (save_job_chunk demoRelay "j" 2 "!" "t2" 10 QUEUE_CHUNK_TTL_DEFAULT).meta
      = demoRelay.meta := by
  refine ⟨(C10_response_fields demoRelay "j").2.2.2.2
    ⟨"u", "w", "m", "private", 2, "1", "2", "t"⟩ (by decide), ?_, ?_⟩
  · exact ((C10_response_fields demoRelay "j").2.2.1 2 "!" "t2" 10
      QUEUE_CHUNK_TTL_DEFAULT).1
  · exact ((C10_response_fields demoRelay "j").2.2.1 2 "!" "t2" 10
      QUEUE_CHUNK_TTL_DEFAULT).2.1

/-! ## Job processor (streams/processor.py, process_chat_job_direct) -/

/-- Behaviour of the external collaborators during one
`process_chat_job_direct` run:

* `tokens` — the fragments the agent (`get_ai_response`, an opaque lazy
  asynchronous finite token stream) yields before it either finishes or the
  run fails;
* `agentErr` — `some e` when an exception `e` is raised inside the `try`
  block after the last yielded token (agent failure mid-stream, or a
  history-store failure on the final save); `none` for a normal run.
  Embedding-generation errors are not modelled since the code catches and
  ignores them;
* `writeFail i` — whether the relay chunk write (`save_job_chunk`) for
  index `i` raises;
* `tstamp i` — the timestamp recorded with chunk `i` (abstracting
  `datetime.utcnow()`);
* `pSaveOk` — whether the history-store write of the partial message in
  the failure handler succeeds (the code catches its failure and logs). -/
structure ProcEnv where
  tokens : List String
  agentErr : Option String
  writeFail : Nat → Bool
  tstamp : Nat → String
  pSaveOk : Bool

/-- The state one `process_chat_job_direct` run mutates: the relay entries
of its own job (`chunks`, `meta`) and the external history store for its
conversation (`history`, the sequence of appended assistant message
contents; `save_message` is external, its returned id is modelled as the
position at which the message is stored). -/
structure JobState where
  chunks : List Chunk
  meta : Option MetaRec
  history : List String
deriving DecidableEq, Repr

/-- The dictionary returned by `process_chat_job_direct` on success
(`streams/processor.py`, lines 148-154). -/
structure ProcResult where
  success : Bool
  job_id : String
  total_chunks : Nat
  response_length : Nat
  db_message_id : String
deriving DecidableEq, Repr

/-- Plain concatenation of a token list; the closed form of the
`full_response += token` accumulation. -/
def concatStr : List String → String
  | [] => ""
  | t :: ts => t ++ concatStr ts

/-- The chunk records the streaming loop writes for `tokens` starting at
index `i`: one chunk per token, consecutively indexed. -/
def enumChunks (tstamp : Nat → String) : Nat → List String → List Chunk
  | _, [] => []
  | i, t :: ts => ⟨i, t, tstamp i⟩ :: enumChunks tstamp (i + 1) ts

/-- The streaming loop of `process_chat_job_direct` (lines 93-103):
for each token, first `full_response += token`, then `save_job_chunk`
(which may raise — then the token is in the accumulated text but its chunk
is not in the relay and the loop aborts), then `chunk_index += 1`.
Returns (chunk list, accumulated text, final `chunk_index`, whether a
chunk write raised). -/
def streamPhase (writeFail : Nat → Bool) (tstamp : Nat → String) :
    List String → Nat → List Chunk → String → List Chunk × String × Nat × Bool
  | [], i, cs, acc => (cs, acc, i, false)
  | t :: ts, i, cs, acc =>
    let acc' := acc ++ t
    if writeFail i then (cs, acc', i, true)
    else streamPhase writeFail tstamp ts (i + 1) (appendChunk cs i t (tstamp i)) acc'

/-- `process_chat_job_direct` (`streams/processor.py`, lines 21-179),
restricted to the per-job relay entries and the conversation's history
store.  After the streaming loop, a normal run saves the assembled
response to the history store and writes the job metadata (with
`total_chunks` = final chunk index); a failing run (chunk-write failure or
`agentErr`) saves `"[Partial - Error] " + full_response` to the history
store only when the accumulated text is non-empty (`if full_response:`),
writes no metadata, and re-raises.  `created_at` abstracts the timestamp
`set_job_metadata` adds. -/
def process_chat_job_direct (user_id whatsapp_jid message conversation_type
    user_message_id job_id : String) (env : ProcEnv) (created_at : String)
    (s : JobState) : JobState × Except String ProcResult :=
  match streamPhase env.writeFail env.tstamp env.tokens 0 s.chunks "" with
  | (cs, full, n, raised) =>
    let err : Option String :=
      if raised then some "relay chunk write failure" else env.agentErr
    match err with
    | some e =>
      ({ chunks := cs
         meta := s.meta
         history :=
           if full ≠ "" ∧ env.pSaveOk then
             s.history ++ ["[Partial - Error] " ++ full]
           else s.history }, Except.error e)
    | none =>
      let msg_id := toString s.history.length
      ({ chunks := cs
         meta := some ⟨user_id, whatsapp_jid, message, conversation_type, n,
           msg_id, user_message_id, created_at⟩
         history := s.history ++ [full] }, Except.ok
           ⟨true, job_id, n, full.length, msg_id⟩)

/-- Closed form of the streaming loop when no chunk write fails. -/
theorem streamPhase_no_fail (wf : Nat → Bool) (tstamp : Nat → String)
    (ts : List String) :
    ∀ (i : Nat) (cs : List Chunk) (acc : String), (∀ k, wf k = false) →
    streamPhase wf tstamp ts i cs acc =
      (cs ++ enumChunks tstamp i ts, acc ++ concatStr ts, i + ts.length, false) := by
  induction ts with
  | nil => intro i cs acc hw; simp [streamPhase, enumChunks, concatStr]
  | cons t ts ih =>
    intro i cs acc hw
    rw [streamPhase, if_neg (by simp [hw])]
    rw [ih (i + 1) _ _ hw]
    simp [enumChunks, concatStr, appendChunk, String.append_assoc, Nat.add_assoc,
      Nat.add_comm 1 ts.length]

/-- Closed form of the streaming loop when the first chunk-write failure
happens at offset `k`: exactly the chunks before `k` are written, the
accumulated text includes the token of the failed write, and the loop
aborts raising. -/
theorem streamPhase_first_fail (wf : Nat → Bool) (tstamp : Nat → String)
    (ts : List String) :
    ∀ (i : Nat) (cs : List Chunk) (acc : String) (k : Nat), k < ts.length →
    wf (i + k) = true → (∀ d, d < k → wf (i + d) = false) →
    streamPhase wf tstamp ts i cs acc =
      (cs ++ enumChunks tstamp i (ts.take k),
        acc ++ concatStr (ts.take (k + 1)), i + k, true) := by
  induction ts with
  | nil => intro i cs acc k hk; simp at hk
  | cons t ts ih =>
    intro i cs acc k hk hfail hbefore
    match k with
    | 0 =>
      rw [streamPhase, if_pos (by simpa using hfail)]
      simp [enumChunks, concatStr]
    | k + 1 =>
      have h0 : wf i = false := by simpa using hbefore 0 (Nat.succ_pos k)
      rw [streamPhase, if_neg (by simp [h0])]
      rw [ih (i + 1) _ _ k (by simpa using hk)
        (by have he : i + 1 + k = i + (k + 1) := by omega
            rw [he]; exact hfail)
        (fun d hd => by
          have := hbefore (d + 1) (by omega)
          have he : i + 1 + d = i + (d + 1) := by omega
          rw [he]; exact this)]
      simp [enumChunks, concatStr, appendChunk, String.append_assoc, Nat.add_assoc,
        Nat.add_comm 1 k]

instance {ε α : Type} [DecidableEq ε] [DecidableEq α] : DecidableEq (Except ε α)
  | .error a, .error b =>
    if h : a = b then .isTrue (by rw [h]) else .isFalse (by intro hc; cases hc; exact h rfl)
  | .error _, .ok _ => .isFalse (by intro hc; cases hc)
  | .ok _, .error _ => .isFalse (by intro hc; cases hc)
  | .ok a, .ok b =>
    if h : a = b then .isTrue (by rw [h]) else .isFalse (by intro hc; cases hc; exact h rfl)

/-- The indices of the chunks the streaming loop writes for a token list,
starting at index `i`, are `i, i+1, ...`, one per token. -/
theorem enumChunks_map_index (tstamp : Nat → String) :
    ∀ (l : List String) (i : Nat),
      (enumChunks tstamp i l).map Chunk.index = List.range' i l.length := by
  intro l
  induction l with
  | nil => intro i; simp [enumChunks]
  | cons t ts ih => intro i; simp [enumChunks, ih, List.range'_succ]

/-! ## Theorems: job processor (C4, C5, C9) -/

/-- C4: a job whose run emits `N` chunks (its agent yields `N` fragments
and every relay write succeeds) writes to the relay exactly the chunk
indices `0..N-1` — contiguous from 0, strictly increasing, no gaps, no
duplicates — regardless of whether the run afterwards completes or fails;
and the chunk list is append-only: the list written after any first `k`
tokens is an initial segment of the final list.  The chunks are written by
this single run (the model threads one writer; job ids are unique per spec
section 3, so no other task writes this key). -/
theorem C4_chunk_indices (uid wj msg ct umid jid ca : String) (env : ProcEnv)
    (s : JobState) (hw : ∀ i, env.writeFail i = false) (hs : s.chunks = []) :
    ((process_chat_job_direct uid wj msg ct umid jid env ca s).1.chunks.map
        Chunk.index = List.range env.tokens.length) ∧
    (∀ k, ∃ tail,
      (process_chat_job_direct uid wj msg ct umid jid env ca s).1.chunks =
        (streamPhase env.writeFail env.tstamp (env.tokens.take k) 0 [] "").1
          ++ tail) := by
  have hrun := streamPhase_no_fail env.writeFail env.tstamp env.tokens 0 s.chunks "" hw
  constructor
  · unfold process_chat_job_direct
    rw [hrun]
    cases henv : env.agentErr <;>
      simp [hs, enumChunks_map_index, List.range_eq_range']
  · intro k
    have htake := streamPhase_no_fail env.writeFail env.tstamp (env.tokens.take k) 0 [] "" hw
    refine ⟨enumChunks env.tstamp (0 + (env.tokens.take k).length)
      (env.tokens.drop k), ?_⟩
    unfold process_chat_job_direct
    rw [hrun, htake]
    have hsplit : enumChunks env.tstamp 0 env.tokens =
        enumChunks env.tstamp 0 (env.tokens.take k) ++
          enumChunks env.tstamp (0 + (env.tokens.take k).length)
            (env.tokens.drop k) := by
      have : ∀ (l1 l2 : List String) (i : Nat),
          enumChunks env.tstamp i (l1 ++ l2) =
            enumChunks env.tstamp i l1 ++
              enumChunks env.tstamp (i + l1.length) l2 := by
        intro l1
        induction l1 with
        | nil => intro l2 i; simp [enumChunks]
        | cons t ts ih =>
          intro l2 i
          simp [enumChunks, ih, Nat.add_assoc, Nat.add_comm 1 ts.length]
      have h2 := this (env.tokens.take k) (env.tokens.drop k) 0
      rwa [List.take_append_drop] at h2
    cases henv : env.agentErr <;> simp [hs, hsplit]

/-- C4, evaluated: a run whose agent yields "a", "b", "c" with all writes
succeeding produces chunk indices `[0, 1, 2]`, and the chunk list after
the first 2 tokens is an initial segment of the final list. -/
theorem C4_chunk_indices_witness :
    ((process_chat_job_direct "u" "w" "m" "private" "um" "j"
        ⟨["a", "b", "c"], none, fun _ => false, fun _ => "t", true⟩ "t"
        ⟨[], none, []⟩).1.chunks.map Chunk.index = List.range 3) ∧
    (∃ tail,
      (process_chat_job_direct "u" "w" "m" "private" "um" "j"
        ⟨["a", "b", "c"], none, fun _ => false, fun _ => "t", true⟩ "t"
        ⟨[], none, []⟩).1.chunks =
        (streamPhase (fun _ => false) (fun _ => "t") (["a", "b", "c"].take 2)
          0 [] "").1 ++ tail) := by
  have h := C4_chunk_indices "u" "w" "m" "private" "um" "j" "t"
    ⟨["a", "b", "c"], none, fun _ => false, fun _ => "t", true⟩
    ⟨[], none, []⟩ (fun _ => rfl) rfl
  exact ⟨h.1, h.2 2⟩

/-- The run environment refuting C5 as stated: the agent yields one
fragment that is the empty string (so one chunk is emitted to the relay)
and then fails. -/
def c5Env : ProcEnv :=
  { tokens := [""]
    agentErr := some "agent failure"
    writeFail := fun _ => false
    tstamp := fun _ => "t"
    pSaveOk := true }

/-- A fresh job: no chunks, no metadata, empty conversation history. -/
def freshJob : JobState := ⟨[], none, []⟩

/-- C5 fails as stated: in the concrete run `c5Env` the processor fails
after emitting one chunk (the chunk list has length 1), yet no partial
assistant message is persisted to the history store, because the partial
save is guarded by the truthiness of the accumulated *text*
(`if full_response:`) and the emitted chunk was the empty string.  The
error is still propagated and no metadata is written. -/
theorem C5_counterexample :
    (process_chat_job_direct "u" "w" "m" "private" "um" "j" c5Env "t"
      freshJob).1.chunks.length = 1 ∧
    (process_chat_job_direct "u" "w" "m" "private" "um" "j" c5Env "t"
      freshJob).1.history = [] ∧
    (process_chat_job_direct "u" "w" "m" "private" "um" "j" c5Env "t"
      freshJob).1.meta = none ∧
    (process_chat_job_direct "u" "w" "m" "private" "um" "j" c5Env "t"
      freshJob).2 = Except.error "agent failure" := by
  refine ⟨by decide, by decide, by decide, by decide⟩

/-- C5 (amended): if the Job Processor fails (its agent raises after
yielding its fragments, or a later step of the run raises; relay writes
succeeding, the history store accepting the partial write), then the error
is propagated to the caller and no job metadata is written; a partial
assistant message marked `"[Partial - Error] "` and containing the text
produced so far is persisted to the external history store exactly when
that accumulated text is non-empty (in particular a failure before any
fragment, whose accumulated text is empty, persists nothing — but so does
a failure after only empty-string fragments). -/
theorem C5_failure_handling (uid wj msg ct umid jid ca e : String)
    (env : ProcEnv) (s : JobState) (hagent : env.agentErr = some e)
    (hw : ∀ i, env.writeFail i = false) (hp : env.pSaveOk = true) :
    ((process_chat_job_direct uid wj msg ct umid jid env ca s).2 =
      Except.error e) ∧
    ((process_chat_job_direct uid wj msg ct umid jid env ca s).1.meta =
      s.meta) ∧
    (concatStr env.tokens ≠ "" →
      (process_chat_job_direct uid wj msg ct umid jid env ca s).1.history =
        s.history ++ ["[Partial - Error] " ++ concatStr env.tokens]) ∧
    (concatStr env.tokens = "" →
      (process_chat_job_direct uid wj msg ct umid jid env ca s).1.history =
        s.history) := by
  have hrun := streamPhase_no_fail env.writeFail env.tstamp env.tokens 0 s.chunks "" hw
  unfold process_chat_job_direct
  rw [hrun, hagent]
  by_cases hfull : concatStr env.tokens = "" <;>
    simp [hfull, hp, String.empty_append]

/-- C5 (amended), evaluated: a run whose agent yields "Hi" then fails with
"boom" propagates the error, writes no metadata, and appends exactly
"[Partial - Error] Hi" to the history store. -/
theorem C5_failure_handling_witness :
    ((process_chat_job_direct "u" "w" "m" "private" "um" "j"
        ⟨["Hi"], some "boom", fun _ => false, fun _ => "t", true⟩ "t"
        freshJob).2 = Except.error "boom") ∧
    ((process_chat_job_direct "u" "w" "m" "private" "um" "j"
        ⟨["Hi"], some "boom", fun _ => false, fun _ => "t", true⟩ "t"
        freshJob).1.meta = none) ∧
    ((process_chat_job_direct "u" "w" "m" "private" "um" "j"
        ⟨["Hi"], some "boom", fun _ => false, fun _ => "t", true⟩ "t"
        freshJob).1.history = ["[Partial - Error] Hi"]) := by
  have h := C5_failure_handling "u" "w" "m" "private" "um" "j" "t" "boom"
    ⟨["Hi"], some "boom", fun _ => false, fun _ => "t", true⟩ freshJob
    rfl (fun _ => rfl) rfl
  exact ⟨h.1, h.2.1, (h.2.2.1 (by decide)).trans (by decide)⟩

/-- The run environment refuting C9 as stated: the agent yields "a" then
"b", and the relay write of chunk 0 fails. -/
def c9Env : ProcEnv :=
  { tokens := ["a", "b"]
    agentErr := none
    writeFail := fun i => i == 0
    tstamp := fun _ => "t"
    pSaveOk := true }

/-- C9 fails as stated: in the concrete run `c9Env` the failure of the
single relay write for chunk 0 aborts the whole job — the chunk list stays
empty (the write for the second fragment "b" is never attempted), the run
propagates an error, and the failure handler persists the partial text
"a" — instead of continuing with the subsequent chunk writes. -/
theorem C9_counterexample :
    (process_chat_job_direct "u" "w" "m" "private" "um" "j" c9Env "t"
      freshJob).1.chunks = [] ∧
    (process_chat_job_direct "u" "w" "m" "private" "um" "j" c9Env "t"
      freshJob).2 = Except.error "relay chunk write failure" ∧
    (process_chat_job_direct "u" "w" "m" "private" "um" "j" c9Env "t"
      freshJob).1.history = ["[Partial - Error] a"] := by
  refine ⟨by decide, by decide, by decide⟩

/-- C9 (amended): if the relay write of chunk `k` fails (all earlier writes
having succeeded), the Job Processor aborts the job as a job-level failure:
exactly the chunks `0..k-1` remain written, no later chunk write is
attempted, the error propagates to the caller (whose handler logs it and
still acknowledges the entry), no metadata is written, and the text
accumulated through fragment `k` is persisted as a partial message if
non-empty. -/
theorem C9_relay_write_aborts (uid wj msg ct umid jid ca : String)
    (env : ProcEnv) (s : JobState) (k : Nat) (hk : k < env.tokens.length)
    (hfail : env.writeFail k = true)
    (hbefore : ∀ d, d < k → env.writeFail d = false)
    (hp : env.pSaveOk = true) :
    ((process_chat_job_direct uid wj msg ct umid jid env ca s).1.chunks =
      s.chunks ++ enumChunks env.tstamp 0 (env.tokens.take k)) ∧
    ((process_chat_job_direct uid wj msg ct umid jid env ca s).2 =
      Except.error "relay chunk write failure") ∧
    ((process_chat_job_direct uid wj msg ct umid jid env ca s).1.meta =
      s.meta) ∧
    (concatStr (env.tokens.take (k + 1)) ≠ "" →
      (process_chat_job_direct uid wj msg ct umid jid env ca s).1.history =
        s.history ++
          ["[Partial - Error] " ++ concatStr (env.tokens.take (k + 1))]) := by
  have hrun := streamPhase_first_fail env.writeFail env.tstamp env.tokens 0
    s.chunks "" k hk (by simpa using hfail)
    (fun d hd => by simpa using hbefore d hd)
  unfold process_chat_job_direct
  rw [hrun]
  by_cases hfull : concatStr (env.tokens.take (k + 1)) = "" <;>
    simp [hfull, hp, String.empty_append]

/-- C9 (amended), evaluated on `c9Env` with the failure at chunk 0: no
chunk remains written, the error propagates, no metadata is written, and
the partial text "a" is persisted. -/
theorem C9_relay_write_aborts_witness :
    ((process_chat_job_direct "u" "w" "m" "private" "um" "j" c9Env "t"
      freshJob).1.chunks = [] ++ enumChunks c9Env.tstamp 0 (c9Env.tokens.take 0)) ∧
    ((process_chat_job_direct "u" "w" "m" "private" "um" "j" c9Env "t"
      freshJob).1.history = [] ++ ["[Partial - Error] " ++
        concatStr (c9Env.tokens.take 1)]) := by
  have h := C9_relay_write_aborts "u" "w" "m" "private" "um" "j" "t" c9Env
    freshJob 0 (by decide) (by decide) (fun d hd => by omega) rfl
  exact ⟨h.1, h.2.2.2 (by decide)⟩

/-! ## Stream consumer (streams/consumer.py) -/

/-- Outcome of one `process_single_message` invocation for an entry:
it returns (`ok`), raises (`err`), or never completes (`hang` — possible
because no timeout bounds the invocation; the `await` then never
resumes). -/
inductive POutcome
  | ok
  | err
  | hang
deriving DecidableEq, Repr

/-- Observable events of the consumer on one conversation's log: an entry
(identified by its position payload) is read from the stream, handed to the
Job Processor (with its success flag), or acknowledged. -/
inductive Ev
  | read (j : Nat)
  | procEv (j : Nat) (ok : Bool)
  | ack (j : Nat)
deriving DecidableEq, Repr

/-- `process_user_stream(redis, user_id, running_flag)`
(`streams/consumer.py`, lines 69-104) as the event trace it produces on one
conversation's pending entries: it repeatedly reads one entry
(`read_stream_messages(..., count=1)`), processes it synchronously, and
acknowledges it — also when processing raised (`except` branch, lines
91-100: "Still acknowledge to prevent infinite retries") — before reading
the next; it stops when no entries remain.  When an invocation never
completes (`hang`), nothing after its `await` runs, so the trace ends at
that entry's `read`.

`read_stream_messages` and `acknowledge_message` live in
`streams/manager.py`, absent from the available sources; they are modelled
from the spec's Durable Append Log contract (section 4.1): `read_next`
delivers the next undelivered entry, oldest first, and `acknowledge` marks
it done.  The acknowledgment call itself is modelled as succeeding (its
failure is store unavailability, spec section 7 "Acknowledgment
failure"). -/
def process_user_stream (outcome : Nat → POutcome) : List Nat → List Ev
  | [] => []
  | j :: rest =>
    match outcome j with
    | POutcome.ok =>
      Ev.read j :: Ev.procEv j true :: Ev.ack j :: process_user_stream outcome rest
    | POutcome.err =>
      Ev.read j :: Ev.procEv j false :: Ev.ack j :: process_user_stream outcome rest
    | POutcome.hang => [Ev.read j]

/-- The trace fragment one entry contributes. -/
def blockOf (outcome : Nat → POutcome) (j : Nat) : List Ev :=
  match outcome j with
  | POutcome.ok => [Ev.read j, Ev.procEv j true, Ev.ack j]
  | POutcome.err => [Ev.read j, Ev.procEv j false, Ev.ack j]
  | POutcome.hang => [Ev.read j]


/-- `run_stream_consumer(redis)` (`streams/consumer.py`, lines 186-233)
projected onto one conversation: `cycles` lists, for each discovery cycle
in which the conversation was dispatched, the entries its task drains.
The per-cycle traces concatenate because each cycle spawns at most one
task per conversation (`active_streams` is a set) and the loop `await`s
`asyncio.gather` over all of a cycle's tasks before starting the next
cycle, so no task of an earlier cycle is still running when a later cycle
dispatches. -/
def run_stream_consumer (outcome : Nat → POutcome) (cycles : List (List Nat)) :
    List Ev :=
  (cycles.map (process_user_stream outcome)).flatten

/-- Every block starts with the `read` of its entry, whatever the
processing outcome. -/
theorem blockOf_head (outcome : Nat → POutcome) (j : Nat) :
    ∃ t, blockOf outcome j = Ev.read j :: t := by
  cases ho : outcome j <;> simp [blockOf, ho]

/-- Under a terminating outcome, the block is `[read, handed, ack]`. -/
theorem blockOf_no_hang (outcome : Nat → POutcome) (j : Nat)
    (h : outcome j ≠ POutcome.hang) :
    blockOf outcome j =
      [Ev.read j, Ev.procEv j (outcome j = POutcome.ok), Ev.ack j] := by
  cases ho : outcome j <;> simp_all [blockOf]

/-- When no entry hangs, the drain trace is the concatenation of one
`[read, handed-to-processor, ack]` block per entry, in log order. -/
theorem process_user_stream_eq_flatMap (outcome : Nat → POutcome)
    (l : List Nat) (h : ∀ j ∈ l, outcome j ≠ POutcome.hang) :
    process_user_stream outcome l = l.flatMap (blockOf outcome) := by
  induction l with
  | nil => simp [process_user_stream]
  | cons j rest ih =>
    have hj : outcome j ≠ POutcome.hang := h j (List.mem_cons_self j rest)
    have hrest := ih fun i hi => h i (List.mem_cons_of_mem j hi)
    cases ho : outcome j <;>
      simp_all [process_user_stream, blockOf, ho]

/-- Dropping the first `k` complete blocks of a no-hang block trace leaves
the block trace of the remaining entries. -/
theorem flatMap_block_drop (outcome : Nat → POutcome) :
    ∀ (l : List Nat), (∀ j ∈ l, outcome j ≠ POutcome.hang) →
    ∀ (k : Nat),
      (l.flatMap (blockOf outcome)).drop (3 * k) =
        (l.drop k).flatMap (blockOf outcome) := by
  intro l
  induction l with
  | nil => intro h k; simp
  | cons j rest ih =>
    intro h k
    match k with
    | 0 => simp
    | k + 1 =>
      have hj : outcome j ≠ POutcome.hang := h j (List.mem_cons_self j rest)
      have hrest := ih (fun i hi => h i (List.mem_cons_of_mem j hi)) k
      have h3 : 3 * (k + 1) = 3 * k + 1 + 1 + 1 := by ring
      rw [List.flatMap_cons, blockOf_no_hang outcome j hj, h3]
      simpa using hrest

/-- The portion of a no-hang block trace from the `k`-th entry onwards:
the `read`, hand-off and `ack` of entry `k`, then immediately the `read`
of entry `k+1`. -/
theorem blockTrace_adjacent (outcome : Nat → POutcome) (l : List Nat)
    (h : ∀ j ∈ l, outcome j ≠ POutcome.hang) (k : Nat)
    (hk : k + 1 < l.length) :
    ∃ (b : Bool) (t : List Ev),
      (l.flatMap (blockOf outcome)).drop (3 * k) =
        Ev.read (l.get ⟨k, by omega⟩) :: Ev.procEv (l.get ⟨k, by omega⟩) b ::
          Ev.ack (l.get ⟨k, by omega⟩) ::
            Ev.read (l.get ⟨k + 1, hk⟩) :: t := by
  have hdrop := flatMap_block_drop outcome l h k
  have hk1 : k < l.length := by omega
  have hcons : l.drop k = l.get ⟨k, hk1⟩ :: l.drop (k + 1) := by
    rw [List.drop_eq_getElem_cons hk1]; rfl
  have hcons2 : l.drop (k + 1) = l.get ⟨k + 1, hk⟩ :: l.drop (k + 2) := by
    rw [List.drop_eq_getElem_cons hk]; rfl
  have hmem : l.get ⟨k, hk1⟩ ∈ l := List.get_mem l k hk1
  obtain ⟨t2, ht2⟩ := blockOf_head outcome (l.get ⟨k + 1, hk⟩)
  refine ⟨(outcome (l.get ⟨k, hk1⟩) = POutcome.ok : Bool), ?_, ?_⟩
  · exact t2 ++ (l.drop (k + 2)).flatMap (blockOf outcome)
  · rw [hdrop, hcons, List.flatMap_cons,
      blockOf_no_hang outcome _ (h _ hmem), hcons2, List.flatMap_cons, ht2]
    simp

/-! ## Discovery (streams/consumer.py, discover_active_streams) -/

/-- One conversation's Redis stream together with its consumer-group
bookkeeping: the entry ids physically present in the stream (`XADD`ed and
not deleted), those delivered at least once to the group, and those
acknowledged (`XACK`).  `acknowledge_message` (in the absent
`streams/manager.py`) is modelled from the spec's log contract, which
destroys an acknowledged entry only *logically* (spec section 3), matching
Redis `XACK`, which removes the entry from the pending list but not from
the stream. -/
structure StreamLogState where
  entries : List Nat
  delivered : List Nat
  acked : List Nat
deriving DecidableEq, Repr

/-- `redis.xpending(stream_key, GROUP_NAME)["pending"]`: the number of
entries delivered to the group but not yet acknowledged. -/
def xpendingCount (s : StreamLogState) : Nat :=
  (s.delivered.filter (fun e => !(s.acked.contains e))).length

/-- The test `discover_active_streams` applies to one stream
(`streams/consumer.py`, lines 38-51): pending count positive, or else
`redis.xread({stream_key: "0-0"}, count=1)` returns something — and
`XREAD` from id 0-0 returns whatever entries are physically in the stream,
delivered/acknowledged or not. -/
def isActiveStream (s : StreamLogState) : Bool :=
  decide (0 < xpendingCount s) || !s.entries.isEmpty

/-- `active_streams.add(user_id)` on the Python `set`, with the set
represented as the duplicate-free list of its insertion order. -/
def insertOnce (c : String) (acc : List String) : List String :=
  if c ∈ acc then acc else acc ++ [c]

/-- `discover_active_streams(redis)` (`streams/consumer.py`, lines 17-66):
scan all conversation log keys (`stream:user:*`; `logs` pairs each
conversation id with its stream state) and collect into a set the ids of
those whose stream passes `isActiveStream`. -/
def discover_active_streams (logs : List (String × StreamLogState)) :
    List String :=
  logs.foldl (fun acc p => if isActiveStream p.2 then insertOnce p.1 acc else acc) []

/-- The candidate predicate as the specification words it (spec section
4.2): entries pending acknowledgment from a prior read, or new,
never-delivered entries.  Stated from the spec's words, for comparison
with `discover_active_streams`. -/
def specCandidate (s : StreamLogState) : Bool :=
  decide (0 < xpendingCount s) || s.entries.any (fun e => !(s.delivered.contains e))

theorem mem_insertOnce (a c : String) (acc : List String) :
    a ∈ insertOnce c acc ↔ a = c ∨ a ∈ acc := by
  unfold insertOnce
  by_cases h : c ∈ acc
  · simp only [if_pos h]
    constructor
    · exact fun ha => Or.inr ha
    · rintro (rfl | ha)
      · exact h
      · exact ha
  · simp [if_neg h, or_comm]

theorem nodup_insertOnce (c : String) (acc : List String) (h : acc.Nodup) :
    (insertOnce c acc).Nodup := by
  unfold insertOnce
  by_cases hc : c ∈ acc
  · simpa [if_pos hc]
  · simp [if_neg hc, List.nodup_append, h, hc]

theorem discover_aux_mem (a : String) :
    ∀ (logs : List (String × StreamLogState)) (acc : List String),
      a ∈ logs.foldl
          (fun acc p => if isActiveStream p.2 then insertOnce p.1 acc else acc)
          acc ↔
        a ∈ acc ∨ ∃ s, (a, s) ∈ logs ∧ isActiveStream s = true := by
  intro logs
  induction logs with
  | nil => intro acc; simp
  | cons p rest ih =>
    obtain ⟨c, s0⟩ := p
    intro acc
    rw [List.foldl_cons]
    by_cases hp : isActiveStream s0
    · rw [if_pos hp, ih]
      simp only [mem_insertOnce, List.mem_cons, Prod.mk.injEq]
      constructor
      · rintro ((rfl | ha) | ⟨s, hs, hact⟩)
        · exact Or.inr ⟨s0, Or.inl ⟨rfl, rfl⟩, hp⟩
        · exact Or.inl ha
        · exact Or.inr ⟨s, Or.inr hs, hact⟩
      · rintro (ha | ⟨s, ⟨rfl, rfl⟩ | hs, hact⟩)
        · exact Or.inl (Or.inr ha)
        · exact Or.inl (Or.inl rfl)
        · exact Or.inr ⟨s, hs, hact⟩
    · rw [if_neg hp, ih]
      simp only [List.mem_cons, Prod.mk.injEq]
      constructor
      · rintro (ha | ⟨s, hs, hact⟩)
        · exact Or.inl ha
        · exact Or.inr ⟨s, Or.inr hs, hact⟩
      · rintro (ha | ⟨s, ⟨rfl, rfl⟩ | hs, hact⟩)
        · exact Or.inl ha
        · exact absurd hact hp
        · exact Or.inr ⟨s, hs, hact⟩

theorem discover_aux_nodup :
    ∀ (logs : List (String × StreamLogState)) (acc : List String),
      acc.Nodup →
      (logs.foldl
        (fun acc p => if isActiveStream p.2 then insertOnce p.1 acc else acc)
        acc).Nodup := by
  intro logs
  induction logs with
  | nil => intro acc h; simpa
  | cons p rest ih =>
    intro acc h
    rw [List.foldl_cons]
    by_cases hp : isActiveStream p.2
    · rw [if_pos hp]; exact ih _ (nodup_insertOnce p.1 acc h)
    · rw [if_neg hp]; exact ih _ h

/-! ## Theorems: consumer ordering (C1, C2) -/

/-- C1: jobs of one conversation are strictly sequential in log order.
Under terminating job outcomes (success or failure — an invocation that
never returns is C8's concern), the consumer's trace for a conversation
across all dispatch cycles is one `[read, handed-to-processor, ack]` block
per entry, in enqueue order, cycles concatenated; hence for every
consecutive pair of entries, the trace at the `k`-th block reads entry
`k`, hands it to the Job Processor, acknowledges it, and only then — as
the very next event — reads entry `k+1`.  Moreover a single dispatch cycle
never contains two tasks for the same conversation: the discovered
candidate list is duplicate-free. -/
theorem C1_sequential_per_conversation (outcome : Nat → POutcome)
    (cycles : List (List Nat))
    (h : ∀ j ∈ cycles.flatten, outcome j ≠ POutcome.hang) :
    (run_stream_consumer outcome cycles =
      (cycles.flatten).flatMap (blockOf outcome)) ∧
    (∀ (k : Nat) (hk : k + 1 < (cycles.flatten).length),
      ∃ (b : Bool) (t : List Ev),
        (run_stream_consumer outcome cycles).drop (3 * k) =
          Ev.read ((cycles.flatten).get ⟨k, by omega⟩) ::
            Ev.procEv ((cycles.flatten).get ⟨k, by omega⟩) b ::
              Ev.ack ((cycles.flatten).get ⟨k, by omega⟩) ::
                Ev.read ((cycles.flatten).get ⟨k + 1, hk⟩) :: t) ∧
    (∀ logs : List (String × StreamLogState),
      (discover_active_streams logs).Nodup) := by
  have hmain : run_stream_consumer outcome cycles =
      (cycles.flatten).flatMap (blockOf outcome) := by
    unfold run_stream_consumer
    induction cycles with
    | nil => simp
    | cons c cs ih =>
      have hc : ∀ j ∈ c, outcome j ≠ POutcome.hang := by
        intro j hj; exact h j (by simp [hj])
      have hcs : ∀ j ∈ cs.flatten, outcome j ≠ POutcome.hang := by
        intro j hj; exact h j (by simp [hj])
      simp only [List.map_cons, List.flatten_cons, List.flatMap_append,
        process_user_stream_eq_flatMap outcome c hc]
      rw [ih hcs]
  refine ⟨hmain, ?_, ?_⟩
  · intro k hk
    rw [hmain]
    exact blockTrace_adjacent outcome (cycles.flatten) h k hk
  · intro logs
    exact discover_aux_nodup logs [] List.nodup_nil

/-- C1, evaluated: with all jobs succeeding and the conversation's entries
`[10]` then `[11, 12]` drained over two cycles, the trace from position 3
acknowledges entry 11 only after reading and handing it over, and reads
entry 12 immediately after that acknowledgment; and a discovery over two
logs yields a duplicate-free task list. -/
theorem C1_sequential_per_conversation_witness :
    (∃ (b : Bool) (t : List Ev),
      (run_stream_consumer (fun _ => POutcome.ok) [[10], [11, 12]]).drop 3 =
        Ev.read 11 :: Ev.procEv 11 b :: Ev.ack 11 :: Ev.read 12 :: t) ∧
    (discover_active_streams
      [("u1", ⟨[0], [], []⟩), ("u2", ⟨[], [], []⟩)]).Nodup := by
  have h := C1_sequential_per_conversation (fun _ => POutcome.ok)
    [[10], [11, 12]] (by intro j hj; simp)
  refine ⟨?_, h.2.2 _⟩
  have h2 := h.2.1 1 (by decide)
  simpa using h2

/-- C2: every entry the per-conversation processor reads and whose
processing terminates — succeeding or raising — is acknowledged, and the
acknowledgment precedes the reading of the next entry (the trace is one
`[read, handed, ack]` block per entry); consequently a poison entry
(`outcome = err`) does not block later entries of the same conversation:
every entry of the backlog, after any number of failing ones, still has
its `read`, its hand-off to the Job Processor, and its `ack` in the
trace. -/
theorem C2_ack_on_success_or_failure (outcome : Nat → POutcome)
    (entries : List Nat)
    (h : ∀ j ∈ entries, outcome j ≠ POutcome.hang) :
    (process_user_stream outcome entries =
      entries.flatMap (blockOf outcome)) ∧
    (∀ j ∈ entries, Ev.read j ∈ process_user_stream outcome entries ∧
      Ev.procEv j (outcome j = POutcome.ok) ∈
        process_user_stream outcome entries ∧
      Ev.ack j ∈ process_user_stream outcome entries) ∧
    (∀ (k : Nat) (hk : k + 1 < entries.length),
      ∃ (b : Bool) (t : List Ev),
        (process_user_stream outcome entries).drop (3 * k) =
          Ev.read (entries.get ⟨k, by omega⟩) ::
            Ev.procEv (entries.get ⟨k, by omega⟩) b ::
              Ev.ack (entries.get ⟨k, by omega⟩) ::
                Ev.read (entries.get ⟨k + 1, hk⟩) :: t) := by
  have hmain := process_user_stream_eq_flatMap outcome entries h
  refine ⟨hmain, ?_, ?_⟩
  · intro j hj
    rw [hmain]
    have hb := blockOf_no_hang outcome j (h j hj)
    refine ⟨?_, ?_, ?_⟩ <;>
      · rw [List.mem_flatMap]
        exact ⟨j, hj, by rw [hb]; simp⟩
  · intro k hk
    rw [hmain]
    exact blockTrace_adjacent outcome entries h k hk

/-- C2, evaluated: with entry 7 failing (`err`) and entry 8 succeeding,
entry 7 is still acknowledged and entry 8 is still read, handed over and
acknowledged — the poison entry 7 does not block entry 8. -/
theorem C2_ack_on_success_or_failure_witness :
    (Ev.ack 7 ∈ process_user_stream
      (fun j => if j = 7 then POutcome.err else POutcome.ok) [7, 8]) ∧
    (Ev.read 8 ∈ process_user_stream
      (fun j => if j = 7 then POutcome.err else POutcome.ok) [7, 8]) ∧
    (Ev.ack 8 ∈ process_user_stream
      (fun j => if j = 7 then POutcome.err else POutcome.ok) [7, 8]) := by
  have h := C2_ack_on_success_or_failure
    (fun j => if j = 7 then POutcome.err else POutcome.ok) [7, 8]
    (by intro j hj; fin_cases hj <;> simp)
  refine ⟨(h.2.1 7 (by simp)).2.2, (h.2.1 8 (by simp)).1, (h.2.1 8 (by simp)).2.2⟩

/-! ## Theorems: timeout (C8) and discovery candidates (C7) -/

/-- The outcome family refuting C8 as stated: entry 0's Job Processor
invocation never completes (nothing in `process_chat_job_direct` or
`process_user_stream` bounds the invocation with a timeout; the configured
`arq_job_timeout` setting is not consulted on this path), entry 1 would
succeed. -/
def hangOutcome : Nat → POutcome :=
  fun j => if j = 0 then POutcome.hang else POutcome.ok

/-- C8 fails as stated: with the backlog `[0, 1]` and entry 0's invocation
never returning, the trace stops at `read 0` — the stuck invocation is
never converted into a job-level failure, entry 0 is never acknowledged,
and entry 1 is never read: the stuck call wedges the conversation's
processor task. -/
theorem C8_counterexample :
    process_user_stream hangOutcome [0, 1] = [Ev.read 0] ∧
    Ev.ack 0 ∉ process_user_stream hangOutcome [0, 1] ∧
    Ev.read 1 ∉ process_user_stream hangOutcome [0, 1] := by
  refine ⟨by decide, by decide, by decide⟩

/-- Every event of a block concerns the block's own entry. -/
theorem mem_blockOf (outcome : Nat → POutcome) (i : Nat) (e : Ev)
    (h : e ∈ blockOf outcome i) :
    e = Ev.read i ∨ (∃ b, e = Ev.procEv i b) ∨ e = Ev.ack i := by
  cases ho : outcome i <;> simp_all [blockOf] <;> tauto

/-- C8 (amended): no overall timeout bounds a Job Processor invocation on
the stream-consumer path.  An invocation that terminates by raising is
treated as a job-level failure and its entry is still acknowledged; but an
invocation that never completes is never converted into a failure: the
conversation's trace consists of the blocks of the entries before the
stuck one followed by the stuck entry's `read` alone — that entry is never
acknowledged and no later entry of the conversation is ever read. -/
theorem C8_no_timeout (outcome : Nat → POutcome) :
    (∀ entries, (∀ j ∈ entries, outcome j ≠ POutcome.hang) →
      ∀ j ∈ entries, Ev.ack j ∈ process_user_stream outcome entries) ∧
    (∀ pre j post, outcome j = POutcome.hang →
      (∀ i ∈ pre, outcome i ≠ POutcome.hang) →
      process_user_stream outcome (pre ++ j :: post) =
        pre.flatMap (blockOf outcome) ++ [Ev.read j]) ∧
    (∀ pre j post, outcome j = POutcome.hang →
      (∀ i ∈ pre, outcome i ≠ POutcome.hang) → j ∉ pre →
      Ev.ack j ∉ process_user_stream outcome (pre ++ j :: post)) := by
  have hwedge : ∀ (pre : List Nat) (j : Nat) (post : List Nat),
      outcome j = POutcome.hang →
      (∀ i ∈ pre, outcome i ≠ POutcome.hang) →
      process_user_stream outcome (pre ++ j :: post) =
        pre.flatMap (blockOf outcome) ++ [Ev.read j] := by
    intro pre
    induction pre with
    | nil =>
      intro j post hj _
      simp [process_user_stream, hj]
    | cons i rest ih =>
      intro j post hj hpre
      have hi : outcome i ≠ POutcome.hang := hpre i (List.mem_cons_self i rest)
      have hr := ih j post hj (fun x hx => hpre x (List.mem_cons_of_mem i hx))
      cases ho : outcome i <;>
        simp_all [process_user_stream, blockOf, ho]
  refine ⟨?_, hwedge, ?_⟩
  · intro entries hterm j hj
    rw [process_user_stream_eq_flatMap outcome entries hterm, List.mem_flatMap]
    exact ⟨j, hj, by rw [blockOf_no_hang outcome j (hterm j hj)]; simp⟩
  · intro pre j post hj hpre hnotin hack
    rw [hwedge pre j post hj hpre] at hack
    rcases List.mem_append.mp hack with hin | hin
    · obtain ⟨i, hi, hei⟩ := List.mem_flatMap.mp hin
      rcases mem_blockOf outcome i _ hei with he | ⟨b, he⟩ | he
      · cases he
      · cases he
      · cases he
        exact hnotin hi
    · cases List.mem_singleton.mp hin

/-- C8 (amended), evaluated: with entries `[5, 0, 9]` under `hangOutcome`
(entry 5 fine, entry 0 stuck), the trace is entry 5's block followed by
`read 0` only, and entry 0 is never acknowledged; while in a fully
terminating backlog `[5, 6]` with entry 6 failing, both entries are
acknowledged. -/
theorem C8_no_timeout_witness :
    (process_user_stream hangOutcome [5, 0, 9] =
      [5].flatMap (blockOf hangOutcome) ++ [Ev.read 0]) ∧
    (Ev.ack 0 ∉ process_user_stream hangOutcome [5, 0, 9]) ∧
    (Ev.ack 5 ∈ process_user_stream hangOutcome [5, 6]) := by
  have h := C8_no_timeout hangOutcome
  refine ⟨h.2.1 [5] 0 [9] (by decide) (by decide), ?_, ?_⟩
  · exact h.2.2 [5] 0 [9] (by decide) (by decide) (by decide)
  · exact h.1 [5, 6] (by decide) 5 (by decide)

/-- The conversation log refuting C7 as stated: one entry, delivered and
already acknowledged — fully handled. -/
def ackedOnlyLog : StreamLogState := ⟨[5], [5], [5]⟩

/-- C7 fails as stated: the conversation "u1", whose log contains only the
already-acknowledged, fully handled entry 5 (nothing pending, nothing
never-delivered — `specCandidate` is false), is nevertheless in the
candidate set, because the discovery's second check reads the stream from
id 0-0, which returns acknowledged entries too (`XACK` removes an entry
from the pending list, not from the stream). -/
theorem C7_counterexample :
    discover_active_streams [("u1", ackedOnlyLog)] = ["u1"] ∧
    specCandidate ackedOnlyLog = false ∧
    xpendingCount ackedOnlyLog = 0 := by
  refine ⟨by decide, by decide, by decide⟩

/-- C7 (amended): in every discovery cycle, the candidate set is exactly
the set of conversations whose log has entries pending acknowledgment
from a prior read, or whose log is non-empty — physically contains any
entries, delivered/acknowledged or not; in particular a conversation with
no entries at all and nothing pending is not a candidate, but one whose
log still holds only already-acknowledged entries is. -/
theorem C7_candidate_set (logs : List (String × StreamLogState))
    (c : String) :
    c ∈ discover_active_streams logs ↔
      ∃ s : StreamLogState, (c, s) ∈ logs ∧
        (0 < xpendingCount s ∨ s.entries ≠ []) := by
  unfold discover_active_streams
  rw [discover_aux_mem]
  simp only [List.not_mem_nil, false_or]
  constructor
  · rintro ⟨s, hs, hact⟩
    refine ⟨s, hs, ?_⟩
    have := hact
    unfold isActiveStream at this
    rcases Bool.or_eq_true_iff.mp this with hb | hb
    · exact Or.inl (of_decide_eq_true hb)
    · exact Or.inr (by simpa [List.isEmpty_iff] using hb)
  · rintro ⟨s, hs, hcond⟩
    refine ⟨s, hs, ?_⟩
    unfold isActiveStream
    rcases hcond with hb | hb
    · exact Bool.or_eq_true_iff.mpr (Or.inl (decide_eq_true hb))
    · exact Bool.or_eq_true_iff.mpr (Or.inr (by simpa [List.isEmpty_iff] using hb))

/-- C7 (amended), evaluated: a conversation with one pending entry and one
with an empty log: the first is a candidate, the second is not. -/
theorem C7_candidate_set_witness :
    ("u1" ∈ discover_active_streams
      [("u1", ⟨[3], [3], []⟩), ("u2", ⟨[], [], []⟩)]) ∧
    ¬ ("u2" ∈ discover_active_streams
      [("u1", ⟨[3], [3], []⟩), ("u2", ⟨[], [], []⟩)]) := by
  constructor
  · exact (C7_candidate_set _ "u1").mpr
      ⟨⟨[3], [3], []⟩, by simp, Or.inl (by decide)⟩
  · intro hmem
    obtain ⟨s, hs, hcond⟩ := (C7_candidate_set _ "u2").mp hmem
    have : s = (⟨[], [], []⟩ : StreamLogState) := by
      simp [List.mem_cons, Prod.mk.injEq] at hs
      tauto
    rw [this] at hcond
    rcases hcond with hb | hb
    · exact absurd hb (by decide)
    · exact hb rfl
